import Mathlib

/-!
Verification of the ethabi-static decoder (jordy25519/ethabi-static).

The repository contains two revisions of the primitive decoder library:
  * `types/src/lib.rs`  — modelled below in namespace `TypesLib`
  * `src/types.rs`      — modelled below in namespace `SrcTypes`
plus the record specializer `derive/src/lib.rs` (function `decode_steps`),
modelled as `genDecodeStatic` over an explicit schema.

Buffers are byte lists (`List Nat`, entries intended < 256).  Rust's
`Result<_, ()>` together with panics and unchecked out-of-bounds accesses
is modelled by `DRes`:
  * `DRes.ok v`  — `Ok(v)`
  * `DRes.err`   — `Err(())`, the failure value
  * `DRes.abort` — abnormal termination: an index/slice panic or an
    out-of-bounds `get_unchecked` access (undefined behaviour in Rust,
    conservatively mapped to abnormal termination here).
-/

/-- Result of running a piece of decoding code: `Ok`, `Err(())`, or abnormal
termination (panic / out-of-bounds unchecked access). -/
inductive DRes (α : Type) where
  | ok (val : α)
  | err
  | abort
  deriving DecidableEq, Repr

namespace DRes

/-- Sequencing: `Err` and abnormal termination propagate (Rust `?` on the
`Ok` path, and panics/UB propagate unconditionally). -/
def bind {α β : Type} : DRes α → (α → DRes β) → DRes β
  | .ok a, f => f a
  | .err, _ => .err
  | .abort, _ => .abort

/-- Map over the `Ok` value. -/
def map {α β : Type} (f : α → β) : DRes α → DRes β
  | .ok a => .ok (f a)
  | .err => .err
  | .abort => .abort

/-- Rust `Result::unwrap()`: `Ok` passes through, `Err` panics; an already
abnormal computation stays abnormal. -/
def unwrapD {α : Type} : DRes α → DRes α
  | .ok a => .ok a
  | .err => .abort
  | .abort => .abort

/-- `true` exactly on `Ok`. -/
def isOk {α : Type} : DRes α → Bool
  | .ok _ => true
  | _ => false

@[simp] theorem bind_ok {α β : Type} (a : α) (f : α → DRes β) : bind (.ok a) f = f a := rfl
@[simp] theorem bind_err {α β : Type} (f : α → DRes β) : bind .err f = .err := rfl
@[simp] theorem bind_abort {α β : Type} (f : α → DRes β) : bind .abort f = .abort := rfl
@[simp] theorem map_ok {α β : Type} (f : α → β) (a : α) : map f (.ok a) = .ok (f a) := rfl
@[simp] theorem map_err {α β : Type} (f : α → β) : map f (.err : DRes α) = .err := rfl
@[simp] theorem map_abort {α β : Type} (f : α → β) : map f (.abort : DRes α) = .abort := rfl
@[simp] theorem unwrapD_ok {α : Type} (a : α) : unwrapD (.ok a) = .ok a := rfl
@[simp] theorem unwrapD_err {α : Type} : unwrapD (.err : DRes α) = .abort := rfl
@[simp] theorem unwrapD_abort {α : Type} : unwrapD (.abort : DRes α) = .abort := rfl
@[simp] theorem isOk_ok {α : Type} (a : α) : isOk (.ok a) = true := rfl
@[simp] theorem isOk_err {α : Type} : isOk (.err : DRes α) = false := rfl
@[simp] theorem isOk_abort {α : Type} : isOk (.abort : DRes α) = false := rfl

theorem bind_ne_err {α β : Type} {x : DRes α} {f : α → DRes β}
    (hx : x ≠ .err) (hf : ∀ a, f a ≠ .err) : bind x f ≠ .err := by
  cases x with
  | ok a => exact hf a
  | err => exact absurd rfl hx
  | abort => simp [bind]

theorem unwrapD_ne_err {α : Type} (x : DRes α) : unwrapD x ≠ .err := by
  cases x <;> simp [unwrapD]

end DRes

/-- Byte at index `i` of a buffer (`0` as junk default; all uses in proved
statements are guarded by bounds hypotheses). -/
def byteAt (buf : List Nat) (i : Nat) : Nat := buf.getD i 0

/-- `fn as_usize(buf: &[u8]) -> usize` (types/src/lib.rs:60-66, src/types.rs:352-358):
`((buf.get_unchecked(30) as usize) << 8) + (buf.get_unchecked(31) as usize)`.
The two `get_unchecked` reads are out of bounds when fewer than 32 bytes
remain, modelled as abnormal termination. -/
def as_usize (b : List Nat) : DRes Nat :=
  if 32 ≤ b.length then .ok (byteAt b 30 * 256 + byteAt b 31) else .abort

/-- The inline 16-bit head read emitted by the derive macro
(derive/src/lib.rs:106-110):
`((buf.get_unchecked(offset + 30) as usize) << 8) + (buf.get_unchecked(offset + 31) as usize)`. -/
def dynHeadRead (buf : List Nat) (offset : Nat) : DRes Nat :=
  if offset + 31 < buf.length then
    .ok (byteAt buf (offset + 30) * 256 + byteAt buf (offset + 31))
  else .abort

/-- Big-endian value of the `n` bytes starting at `p`. -/
def beBytes (buf : List Nat) (p n : Nat) : Nat :=
  (List.range n).foldl (fun acc i => acc * 256 + byteAt buf (p + i)) 0

/-- `impl DecodeStatic for bool` (types/src/lib.rs:75-79, src/types.rs:81-85):
`Ok(buf[offset + 31] == 1)`; the checked index panics when out of bounds. -/
def bool_decode_static (buf : List Nat) (offset : Nat) : DRes Bool :=
  if offset + 31 < buf.length then .ok (byteAt buf (offset + 31) == 1) else .abort

/-- `impl DecodeStatic for u8` (both files): `Ok(buf[offset + 31])`, checked index. -/
def u8_decode_static (buf : List Nat) (offset : Nat) : DRes Nat :=
  if offset + 31 < buf.length then .ok (byteAt buf (offset + 31)) else .abort

/-- `impl DecodeStatic for u16` (both files): big-endian bytes
`buf[offset+30..offset+32]` via `get_unchecked`. -/
def u16_decode_static (buf : List Nat) (offset : Nat) : DRes Nat :=
  if offset + 32 ≤ buf.length then .ok (beBytes buf (offset + 30) 2) else .abort

/-- `impl DecodeStatic for u32` (both files): big-endian bytes
`buf[offset+28..offset+32]` via `get_unchecked`. -/
def u32_decode_static (buf : List Nat) (offset : Nat) : DRes Nat :=
  if offset + 32 ≤ buf.length then .ok (beBytes buf (offset + 28) 4) else .abort

/-- `impl DecodeStatic for u64` (both files): big-endian bytes
`buf[offset+24..offset+32]` via `get_unchecked`. -/
def u64_decode_static (buf : List Nat) (offset : Nat) : DRes Nat :=
  if offset + 32 ≤ buf.length then .ok (beBytes buf (offset + 24) 8) else .abort

/-- `impl DecodeStatic for u128` (both files): big-endian bytes
`buf[offset+16..offset+32]` via `get_unchecked`. -/
def u128_decode_static (buf : List Nat) (offset : Nat) : DRes Nat :=
  if offset + 32 ≤ buf.length then .ok (beBytes buf (offset + 16) 16) else .abort

/-- `impl DecodeStatic for U256` (both files): `U256::from` of the 32 bytes
at `offset` via `get_unchecked`, big-endian. -/
def u256_decode_static (buf : List Nat) (offset : Nat) : DRes Nat :=
  if offset + 32 ≤ buf.length then .ok (beBytes buf offset 32) else .abort

namespace TypesLib

/-- `impl DecodeStatic for AddressZcp` (types/src/lib.rs:68-73):
`AddressZcp::new(&buf[offset + 12..offset + 32])` — a checked 20-byte slice,
the value right-aligned in the word at `offset`. -/
def address_decode_static (buf : List Nat) (offset : Nat) : DRes (List Nat) :=
  if offset + 32 ≤ buf.length then
    .ok (List.take 20 (List.drop (offset + 12) buf))
  else .abort

/-- `impl DecodeStatic for FixedBytesZcp<N>` (types/src/lib.rs:277-282):
`Self::new(&buf[offset..offset + 32])` — checked 32-byte slice, then an
unchecked cast binding its first `N` bytes. -/
def fixed_bytes_decode_static (N : Nat) (buf : List Nat) (offset : Nat) : DRes (List Nat) :=
  if offset + 32 ≤ buf.length then
    .ok (List.take N (List.take 32 (List.drop offset buf)))
  else .abort

end TypesLib

namespace SrcTypes

/-- `impl DecodeStatic for AddressZcp` (src/types.rs:75-79):
`Ok(AddressZcp::new(buf))` — the unchecked cast `slice_as_array(buf)` binds
the first 20 bytes of `buf`; the `offset` argument is not used. -/
def address_decode_static (buf : List Nat) (offset : Nat) : DRes (List Nat) :=
  if 20 ≤ buf.length then .ok (List.take 20 buf) else .abort

/-- `impl DecodeStatic for FixedBytesZcp<N>` (src/types.rs:326-330):
`Ok(Self::new(buf))` — binds the first `N` bytes of `buf`; the `offset`
argument is not used. -/
def fixed_bytes_decode_static (N : Nat) (buf : List Nat) (offset : Nat) : DRes (List Nat) :=
  if N ≤ buf.length then .ok (List.take N buf) else .abort

end SrcTypes

/-- `impl DecodeStatic for BytesZcp` (types/src/lib.rs:132-139, src/types.rs:138-145):
read the length word at `len_offset` with `as_usize`, then bind the `len`
bytes starting at `len_offset + 32`. -/
def bytes_decode_static (buf : List Nat) (len_offset : Nat) : DRes (List Nat) :=
  DRes.bind (as_usize (List.drop len_offset buf)) fun len =>
    if len_offset + 32 + len ≤ buf.length then
      .ok (List.take len (List.drop (len_offset + 32) buf))
    else .abort

/-- The decoder-protocol interface used by the generic composites: any
implementation of `DecodeStatic::decode_static(buf, offset)` producing a
`Val` (see below). -/
def Dec (α : Type) : Type := List Nat → Nat → DRes α

/-- `T::decode(buf)` = `T::decode_static(buf, 0)` (trait default method,
types/src/lib.rs:10-13, src/types.rs:16-19). -/
def decodeOf {α : Type} (dec : Dec α) (buf : List Nat) : DRes α := dec buf 0

/-- Element loop of `Tuples::<T>::decode_static`
(types/src/lib.rs:162-170, src/types.rs:169-175).  For each `i` in
`[start, start+n)`: `next_tail_offset = tail_offset + i * 32`;
`o = as_usize(buf.get_unchecked(next_tail_offset..)) + tail_offset`;
push `T::decode(buf.get_unchecked(o..)).unwrap()`.  An `o` beyond the buffer
end makes `get_unchecked(o..)` out of bounds (abnormal). -/
def tuplesLoop {α : Type} (dec : Dec α) (buf : List Nat) (tail_offset : Nat) :
    Nat → Nat → DRes (List α)
  | _, 0 => .ok []
  | i, n + 1 =>
    DRes.bind (as_usize (List.drop (tail_offset + i * 32) buf)) fun t =>
      if t + tail_offset ≤ buf.length then
        DRes.bind (DRes.unwrapD (decodeOf dec (List.drop (t + tail_offset) buf))) fun v =>
          DRes.bind (tuplesLoop dec buf tail_offset (i + 1) n) fun rest =>
            .ok (v :: rest)
      else .abort

/-- `impl DecodeStatic for Tuples<T>` (types/src/lib.rs:151-172,
src/types.rs:157-179): `len_offset = as_usize(&buf[offset..])`;
`len = as_usize(&buf[len_offset..])`; `tail_offset = len_offset + 32`
(= `shift` in types/src/lib.rs); then the element loop. -/
def tuples_decode_static {α : Type} (dec : Dec α) (buf : List Nat) (offset : Nat) :
    DRes (List α) :=
  DRes.bind (as_usize (List.drop offset buf)) fun len_offset =>
    DRes.bind (as_usize (List.drop len_offset buf)) fun len =>
      tuplesLoop dec buf (len_offset + 32) 0 len

/-- Element loop of `Array::<T, true>::decode_static` (src/types.rs:205-213):
same offset arithmetic as `tuplesLoop`, the element slice `&buf[o..]` checked. -/
def arrayDynLoop {α : Type} (dec : Dec α) (buf : List Nat) (tail_offset : Nat) :
    Nat → Nat → DRes (List α)
  | _, 0 => .ok []
  | i, n + 1 =>
    DRes.bind (as_usize (List.drop (tail_offset + i * 32) buf)) fun t =>
      if t + tail_offset ≤ buf.length then
        DRes.bind (DRes.unwrapD (decodeOf dec (List.drop (t + tail_offset) buf))) fun v =>
          DRes.bind (arrayDynLoop dec buf tail_offset (i + 1) n) fun rest =>
            .ok (v :: rest)
      else .abort

/-- `impl DecodeStatic for Array<T, true>` — variable-length array of dynamic
elements (src/types.rs:198-216). -/
def array_dyn_decode_static {α : Type} (dec : Dec α) (buf : List Nat) (len_offset : Nat) :
    DRes (List α) :=
  DRes.bind (as_usize (List.drop len_offset buf)) fun len =>
    arrayDynLoop dec buf (len_offset + 32) 0 len

/-- Element loop of `Array::<T, false>::decode_static` (src/types.rs:250-254):
`idx = len_offset + 32 + i * 32`; push `T::decode(&buf[idx..]).unwrap()`. -/
def arrayStaLoop {α : Type} (dec : Dec α) (buf : List Nat) (len_offset : Nat) :
    Nat → Nat → DRes (List α)
  | _, 0 => .ok []
  | i, n + 1 =>
    if len_offset + 32 + i * 32 ≤ buf.length then
      DRes.bind (DRes.unwrapD (decodeOf dec (List.drop (len_offset + 32 + i * 32) buf))) fun v =>
        DRes.bind (arrayStaLoop dec buf len_offset (i + 1) n) fun rest =>
          .ok (v :: rest)
    else .abort

/-- `impl DecodeStatic for Array<T, false>` — variable-length array of static
elements (src/types.rs:245-257). -/
def array_sta_decode_static {α : Type} (dec : Dec α) (buf : List Nat) (len_offset : Nat) :
    DRes (List α) :=
  DRes.bind (as_usize (List.drop len_offset buf)) fun len =>
    arrayStaLoop dec buf len_offset 0 len

/-- `impl DecodeStatic for Tuple<T>` — dynamic tuple (src/types.rs:186-191):
`tail_offset = as_usize(buf.get_unchecked(offset..))`;
`Ok(Self(T::decode(&buf[tail_offset..]).unwrap()))`. -/
def tuple_decode_static {α : Type} (dec : Dec α) (buf : List Nat) (offset : Nat) :
    DRes α :=
  DRes.bind (as_usize (List.drop offset buf)) fun tail_offset =>
    if tail_offset ≤ buf.length then
      DRes.unwrapD (decodeOf dec (List.drop tail_offset buf))
    else .abort

/-- `impl DecodeStatic for Wrapped<T>` (types/src/lib.rs:247-256,
src/types.rs:296-305): `data_offset = len_offset + 64`;
`len = as_usize(&buf[len_offset..])`;
`Ok(Wrapped(T::decode(&buf[data_offset..data_offset + len])?))` — note the
`?`: an inner `Err` propagates as `Err`. -/
def wrapped_decode_static {α : Type} (dec : Dec α) (buf : List Nat) (len_offset : Nat) :
    DRes α :=
  DRes.bind (as_usize (List.drop len_offset buf)) fun len =>
    if len_offset + 64 + len ≤ buf.length then
      decodeOf dec (List.take len (List.drop (len_offset + 64) buf))
    else .abort

/-- Decoded values produced by the primitive decoders, as one universe so the
record specializer can be modelled schema-generically. -/
inductive Val where
  | nat (n : Nat)
  | bool (b : Bool)
  | bytes (bs : List Nat)
  deriving DecidableEq, Repr

/-- `u8::decode_static` packaged as a `Val` decoder. -/
def u8decV : Dec Val := fun buf offset => DRes.map Val.nat (u8_decode_static buf offset)

/-- `bool::decode_static` packaged as a `Val` decoder. -/
def boolDecV : Dec Val := fun buf offset => DRes.map Val.bool (bool_decode_static buf offset)

/-- One field of a record schema, as seen by the derive macro
(derive/src/lib.rs:79-132): skipped (with the field type's `Default`
value), static (decoded in the head pass at `32 * idx`), or dynamic
(16-bit head read at `32 * idx`, tail decode at the captured offset). -/
inductive FieldSpec where
  | skp (d : Val)
  | sta (dec : Dec Val)
  | dyn (dec : Dec Val)

/-- Value captured by the head pass for one field. -/
inductive HeadV where
  | hskip
  | hval (v : Val)
  | hoff (o : Nat)

/-- Head pass of the emitted decoder (derive/src/lib.rs:79-110): fields in
declared order; `idx` counts every declared field (the macro's
`enumerate()`), including skipped ones; static fields run
`<T>::decode_static(buf, 32 * idx)?`; dynamic fields run the inline 16-bit
read at `32 * idx`; skipped fields emit no read. -/
def headPass (buf : List Nat) : List FieldSpec → Nat → DRes (List HeadV)
  | [], _ => .ok []
  | .skp _ :: rest, idx =>
    DRes.map (fun hs => HeadV.hskip :: hs) (headPass buf rest (idx + 1))
  | .sta dec :: rest, idx =>
    DRes.bind (dec buf (32 * idx)) fun v =>
      DRes.map (fun hs => HeadV.hval v :: hs) (headPass buf rest (idx + 1))
  | .dyn _ :: rest, idx =>
    DRes.bind (dynHeadRead buf (32 * idx)) fun o =>
      DRes.map (fun hs => HeadV.hoff o :: hs) (headPass buf rest (idx + 1))

/-- Tail pass of the emitted decoder (derive/src/lib.rs:88-131): the struct
literal's fields in declared order; skipped fields become
`Default::default()`; static fields reuse the head-pass value; dynamic
fields run `<T>::decode_static(buf, captured_offset)?`. -/
def tailPass (buf : List Nat) : List FieldSpec → List HeadV → DRes (List Val)
  | [], [] => .ok []
  | .skp d :: rest, .hskip :: hs =>
    DRes.map (fun vs => d :: vs) (tailPass buf rest hs)
  | .sta _ :: rest, .hval v :: hs =>
    DRes.map (fun vs => v :: vs) (tailPass buf rest hs)
  | .dyn dec :: rest, .hoff o :: hs =>
    DRes.bind (dec buf o) fun v =>
      DRes.map (fun vs => v :: vs) (tailPass buf rest hs)
  | _, _ => .abort

/-- The decoder emitted by `#[derive(DecodeStatic)]` for a record schema
(derive/src/lib.rs:31-33 and 71-146): head pass then tail pass.  The
`offset` parameter of the generated `decode_static(buf, offset)` does not
occur in the generated body — field offsets are the literals `32 * idx`. -/
def genDecodeStatic (schema : List FieldSpec) (buf : List Nat) (offset : Nat) :
    DRes (List Val) :=
  DRes.bind (headPass buf schema 0) fun hs => tailPass buf schema hs

/-- Modelled from the spec (§4.10): the head pass the specification
describes, reading field `i`'s head slot at `base + 32 * i` — static fields
decoded there, dynamic head offsets read there.  Differs from `headPass`
only in that `base` participates in every head-slot address. -/
def specHeadPass (buf : List Nat) (base : Nat) : List FieldSpec → Nat → DRes (List HeadV)
  | [], _ => .ok []
  | .skp _ :: rest, idx =>
    DRes.map (fun hs => HeadV.hskip :: hs) (specHeadPass buf base rest (idx + 1))
  | .sta dec :: rest, idx =>
    DRes.bind (dec buf (base + 32 * idx)) fun v =>
      DRes.map (fun hs => HeadV.hval v :: hs) (specHeadPass buf base rest (idx + 1))
  | .dyn _ :: rest, idx =>
    DRes.bind (dynHeadRead buf (base + 32 * idx)) fun o =>
      DRes.map (fun hs => HeadV.hoff o :: hs) (specHeadPass buf base rest (idx + 1))

/-- Modelled from the spec (§4.10): the record decoder the specification
describes — head pass with `base` participating, then the tail pass. -/
def specDecodeStatic (schema : List FieldSpec) (buf : List Nat) (base : Nat) :
    DRes (List Val) :=
  DRes.bind (specHeadPass buf base schema 0) fun hs => tailPass buf schema hs

/-! ### Concrete buffers used in witnesses and counterexamples -/

/-- 64-byte buffer: word 0 ends in byte `1`, word 1 ends in byte `2`. -/
def cbufTwoWords : List Nat :=
  List.replicate 31 0 ++ [1] ++ (List.replicate 31 0 ++ [2])

/-- 64-byte buffer: word 0 ends in byte `7`, word 1 ends in byte `9`. -/
def cbufSkip : List Nat :=
  List.replicate 31 0 ++ [7] ++ (List.replicate 31 0 ++ [9])

/-- 64-byte buffer whose byte at index `i` is `i`. -/
def cbufRange : List Nat := List.range 64

/-- 128-byte `Tuples` encoding: indirection word `32`, length word `1`,
element tail-offset word `32` (so the element starts at `32 + 64 = 96`),
element word ending in byte `42`. -/
def cbufTuples : List Nat :=
  List.replicate 31 0 ++ [32] ++ (List.replicate 31 0 ++ [1]) ++
    (List.replicate 31 0 ++ [32]) ++ (List.replicate 31 0 ++ [42])

/-- 112-byte truncated `Tuples` encoding: indirection `32`, length `1`,
element tail-offset `32` (element at `96`), but only 16 bytes remain after
position 96, so a 32-byte element read is truncated. -/
def cbufTuplesTrunc : List Nat :=
  List.replicate 31 0 ++ [32] ++ (List.replicate 31 0 ++ [1]) ++
    (List.replicate 31 0 ++ [32]) ++ List.replicate 16 0

/-- 128-byte `Wrapped` input at head position 0: length word `32`, payload
word (bytes 64..96) ending in byte `77`. -/
def cbufWrapped : List Nat :=
  List.replicate 31 0 ++ [32] ++ (List.replicate 63 0 ++ [77]) ++ List.replicate 32 0

/-- 32-byte word whose bytes 30 and 31 are `171` and `205`. -/
def cbufWord : List Nat := List.replicate 30 0 ++ [171, 205]

/-- 32-byte word whose last byte is the non-canonical boolean `2`. -/
def cbufBool2 : List Nat := List.replicate 31 0 ++ [2]

/-! ### Helper lemmas -/

theorem byteAt_drop (buf : List Nat) (p i : Nat) :
    byteAt (List.drop p buf) i = byteAt buf (p + i) := by
  simp [byteAt, List.getD_eq_getElem?_getD, List.getElem?_drop]

theorem byteAt_le_of_mem_le (buf : List Nat) (i : Nat)
    (hb : ∀ b ∈ buf, b ≤ 255) : byteAt buf i ≤ 255 := by
  by_cases h : i < buf.length
  · have hmem : buf[i] ∈ buf := List.getElem_mem h
    simpa [byteAt, List.getD_eq_getElem?_getD, List.getElem?_eq_getElem h] using hb _ hmem
  · simp [byteAt, List.getD_eq_getElem?_getD, List.getElem?_eq_none (le_of_not_lt h)]

/-! ### C2 — 16-bit offset/length reads -/

/-- C2: every offset/length read at position `p` (the library's `as_usize`
on the slice starting at `p`, and the derive macro's inline head read at
`p`) returns exactly `buf[p+30] * 256 + buf[p+31]`, consulting only bytes
30 and 31 of the word, and the value is at most 65535. -/
theorem as_usize_low16_spec (buf : List Nat) (p : Nat)
    (h : p + 32 ≤ buf.length) (hb : ∀ b ∈ buf, b ≤ 255) :
    as_usize (List.drop p buf) = .ok (byteAt buf (p + 30) * 256 + byteAt buf (p + 31)) ∧
    dynHeadRead buf p = .ok (byteAt buf (p + 30) * 256 + byteAt buf (p + 31)) ∧
    byteAt buf (p + 30) * 256 + byteAt buf (p + 31) ≤ 65535 := by
  have h30 : byteAt buf (p + 30) ≤ 255 := byteAt_le_of_mem_le buf _ hb
  have h31 : byteAt buf (p + 31) ≤ 255 := byteAt_le_of_mem_le buf _ hb
  refine ⟨?_, ?_, by omega⟩
  · have hlen : 32 ≤ (List.drop p buf).length := by
      rw [List.length_drop]; omega
    unfold as_usize
    rw [if_pos hlen, byteAt_drop, byteAt_drop]
  · have hlt : p + 31 < buf.length := by omega
    simp [dynHeadRead, hlt]

/-- Witness for C2 at a concrete word with bytes 30, 31 = 171, 205. -/
theorem as_usize_low16_spec_witness :
    (0 + 32 ≤ cbufWord.length ∧ ∀ b ∈ cbufWord, b ≤ 255) ∧
    as_usize (List.drop 0 cbufWord) = .ok (171 * 256 + 205) := by
  have h1 : 0 + 32 ≤ cbufWord.length := by decide
  have h2 : ∀ b ∈ cbufWord, b ≤ 255 := by decide
  refine ⟨⟨h1, h2⟩, ?_⟩
  have h3 := (as_usize_low16_spec cbufWord 0 h1 h2).1
  rw [h3]; decide

/-! ### C7 — scalar decoders: success and failure behaviour -/

/-- C7 (amended): every scalar decoder succeeds when the 32-byte word lies
within the buffer and never returns the failure value `Err`; when the word
is truncated it terminates abnormally (checked-index panic or unchecked
out-of-bounds access) instead of returning failure.  The `src/types.rs`
address and bytesN decoders ignore `offset` and succeed exactly when the
buffer holds at least 20 (resp. `N`) bytes. -/
theorem scalar_decoders_total_spec (N : Nat) (buf : List Nat) (offset : Nat) :
    (bool_decode_static buf offset ≠ .err ∧
      ((bool_decode_static buf offset).isOk = true ↔ offset + 32 ≤ buf.length)) ∧
    (u8_decode_static buf offset ≠ .err ∧
      ((u8_decode_static buf offset).isOk = true ↔ offset + 32 ≤ buf.length)) ∧
    (u16_decode_static buf offset ≠ .err ∧
      ((u16_decode_static buf offset).isOk = true ↔ offset + 32 ≤ buf.length)) ∧
    (u32_decode_static buf offset ≠ .err ∧
      ((u32_decode_static buf offset).isOk = true ↔ offset + 32 ≤ buf.length)) ∧
    (u64_decode_static buf offset ≠ .err ∧
      ((u64_decode_static buf offset).isOk = true ↔ offset + 32 ≤ buf.length)) ∧
    (u128_decode_static buf offset ≠ .err ∧
      ((u128_decode_static buf offset).isOk = true ↔ offset + 32 ≤ buf.length)) ∧
    (u256_decode_static buf offset ≠ .err ∧
      ((u256_decode_static buf offset).isOk = true ↔ offset + 32 ≤ buf.length)) ∧
    (TypesLib.address_decode_static buf offset ≠ .err ∧
      ((TypesLib.address_decode_static buf offset).isOk = true ↔ offset + 32 ≤ buf.length)) ∧
    (TypesLib.fixed_bytes_decode_static N buf offset ≠ .err ∧
      ((TypesLib.fixed_bytes_decode_static N buf offset).isOk = true ↔
        offset + 32 ≤ buf.length)) ∧
    (SrcTypes.address_decode_static buf offset ≠ .err ∧
      ((SrcTypes.address_decode_static buf offset).isOk = true ↔ 20 ≤ buf.length)) ∧
    (SrcTypes.fixed_bytes_decode_static N buf offset ≠ .err ∧
      ((SrcTypes.fixed_bytes_decode_static N buf offset).isOk = true ↔ N ≤ buf.length)) := by
  refine ⟨?_, ?_, ?_, ?_, ?_, ?_, ?_, ?_, ?_, ?_, ?_⟩ <;>
    constructor <;>
      (simp only [bool_decode_static, u8_decode_static, u16_decode_static, u32_decode_static,
        u64_decode_static, u128_decode_static, u256_decode_static,
        TypesLib.address_decode_static, TypesLib.fixed_bytes_decode_static,
        SrcTypes.address_decode_static, SrcTypes.fixed_bytes_decode_static]
       split <;> simp_all <;> omega)

/-- C7 counterexample: on the empty buffer the bool decoder terminates
abnormally (the checked index `buf[offset + 31]` panics); it does not
return the failure value. -/
theorem scalar_decoders_truncated_counterexample :
    bool_decode_static ([] : List Nat) 0 = DRes.abort ∧
    (DRes.abort : DRes Bool) ≠ DRes.err := by decide

/-! ### C9 — non-canonical booleans -/

/-- C9 (amended): the bool decoder reads the single byte at `offset + 31`
and returns `true` iff that byte equals 1; any other byte value, including
non-canonical non-zero values, decodes to `false`. -/
theorem bool_decode_strict_spec (buf : List Nat) (offset : Nat)
    (h : offset + 32 ≤ buf.length) :
    bool_decode_static buf offset = .ok (byteAt buf (offset + 31) == 1) ∧
    (byteAt buf (offset + 31) ≠ 1 → bool_decode_static buf offset = .ok false) := by
  have hlt : offset + 31 < buf.length := by omega
  refine ⟨by simp [bool_decode_static, hlt], fun hne => ?_⟩
  simp only [bool_decode_static, if_pos hlt, DRes.ok.injEq]
  exact beq_eq_false_iff_ne.mpr hne

/-- Witness for C9 at the word ending in byte 2. -/
theorem bool_decode_strict_spec_witness :
    (0 + 32 ≤ cbufBool2.length) ∧ bool_decode_static cbufBool2 0 = .ok false := by
  refine ⟨by decide, ?_⟩
  exact (bool_decode_strict_spec cbufBool2 0 (by decide)).2 (by decide)

/-- C9 counterexample: byte 2 at position 31 decodes to `false`, not `true`
as the claim states. -/
theorem bool_decode_noncanonical_counterexample :
    bool_decode_static cbufBool2 0 = DRes.ok false ∧
    bool_decode_static cbufBool2 0 ≠ DRes.ok true := by decide

/-! ### C4 — address decoder -/

/-- C4: evaluation at the failing input.  On the buffer whose byte `i` is
`i`, at offset 0, the `src/types.rs` address decoder returns bytes
`[0..20)` — not the right-aligned bytes `[12..32)` the claim (and the
`types/src/lib.rs` revision, third conjunct) give. -/
theorem address_decode_bug_eval :
    SrcTypes.address_decode_static cbufRange 0 =
      .ok [0, 1, 2, 3, 4, 5, 6, 7, 8, 9, 10, 11, 12, 13, 14, 15, 16, 17, 18, 19] ∧
    SrcTypes.address_decode_static cbufRange 0 ≠
      .ok [12, 13, 14, 15, 16, 17, 18, 19, 20, 21, 22, 23, 24, 25, 26, 27, 28, 29, 30, 31] ∧
    TypesLib.address_decode_static cbufRange 0 =
      .ok [12, 13, 14, 15, 16, 17, 18, 19, 20, 21, 22, 23, 24, 25, 26, 27, 28, 29, 30, 31] := by
  decide

/-! ### C10 — bytesN decoder -/

/-- C10 counterexample: at offset 32 the `src/types.rs` bytesN decoder
returns the first `N` bytes of the whole buffer, not the first `N` bytes of
the word at the offset. -/
theorem fixed_bytes_offset_counterexample :
    SrcTypes.fixed_bytes_decode_static 4 cbufRange 32 = DRes.ok [0, 1, 2, 3] ∧
    SrcTypes.fixed_bytes_decode_static 4 cbufRange 32 ≠ DRes.ok [32, 33, 34, 35] := by
  decide

/-- C10 (amended): for `N ≤ 32` and an in-bounds word, the
`types/src/lib.rs` bytesN decoder returns `buf[offset..offset+N]` (without
inspecting the padding), while the `src/types.rs` revision ignores `offset`
and returns `buf[0..N]`. -/
theorem fixed_bytes_decode_spec (N : Nat) (buf : List Nat) (offset : Nat)
    (hN : N ≤ 32) (h : offset + 32 ≤ buf.length) :
    TypesLib.fixed_bytes_decode_static N buf offset =
      .ok (List.take N (List.drop offset buf)) ∧
    (N ≤ buf.length →
      SrcTypes.fixed_bytes_decode_static N buf offset = .ok (List.take N buf)) := by
  constructor
  · simp [TypesLib.fixed_bytes_decode_static, h, List.take_take, Nat.min_eq_left hN]
  · intro hN2
    simp [SrcTypes.fixed_bytes_decode_static, hN2]

/-- Witness for C10 at `N = 8`, offset 32. -/
theorem fixed_bytes_decode_spec_witness :
    ((8 ≤ 32 ∧ 32 + 32 ≤ cbufRange.length ∧ 8 ≤ cbufRange.length) ∧
     TypesLib.fixed_bytes_decode_static 8 cbufRange 32 =
       .ok [32, 33, 34, 35, 36, 37, 38, 39] ∧
     SrcTypes.fixed_bytes_decode_static 8 cbufRange 32 =
       .ok [0, 1, 2, 3, 4, 5, 6, 7]) := by
  refine ⟨⟨by decide, by decide, by decide⟩, ?_, ?_⟩
  · have h := (fixed_bytes_decode_spec 8 cbufRange 32 (by decide) (by decide)).1
    rw [h]; decide
  · have h := (fixed_bytes_decode_spec 8 cbufRange 32 (by decide) (by decide)).2 (by decide)
    rw [h]; decide

/-! ### DRes algebra -/

theorem DRes.map_id {α : Type} (x : DRes α) : DRes.map (fun a => a) x = x := by
  cases x <;> rfl

theorem DRes.bind_assoc {α β γ : Type} (x : DRes α) (f : α → DRes β) (g : β → DRes γ) :
    DRes.bind (DRes.bind x f) g = DRes.bind x fun a => DRes.bind (f a) g := by
  cases x <;> rfl

theorem DRes.bind_map {α β γ : Type} (f : α → β) (x : DRes α) (g : β → DRes γ) :
    DRes.bind (DRes.map f x) g = DRes.bind x fun a => g (f a) := by
  cases x <;> rfl

theorem DRes.map_bind {α β γ : Type} (f : β → γ) (x : DRes α) (g : α → DRes β) :
    DRes.map f (DRes.bind x g) = DRes.bind x fun a => DRes.map f (g a) := by
  cases x <;> rfl

theorem DRes.map_map {α β γ : Type} (f : β → γ) (g : α → β) (x : DRes α) :
    DRes.map f (DRes.map g x) = DRes.map (fun a => f (g a)) x := by
  cases x <;> rfl

theorem as_usize_ne_err (b : List Nat) : as_usize b ≠ .err := by
  unfold as_usize; split <;> simp

/-! ### C5 — Wrapped payload -/

/-- C5: `Wrapped::<T>::decode_static(buf, p)` reads the length `L` (low 16
bits of the word at `p`), skips exactly 64 bytes, and decodes `T` at offset
0 of the inner region `buf[p+64 .. p+64+L]`; whatever the inner decode
returns (success, `Err` via `?`, or abnormal termination) is the result. -/
theorem wrapped_decode_spec {α : Type} (dec : Dec α) (buf : List Nat) (p L : Nat)
    (hL : as_usize (List.drop p buf) = .ok L)
    (hb : p + 64 + L ≤ buf.length) :
    wrapped_decode_static dec buf p = dec (List.take L (List.drop (p + 64) buf)) 0 := by
  unfold wrapped_decode_static
  rw [hL, DRes.bind_ok, if_pos hb]
  rfl

set_option maxRecDepth 40000 in
/-- Witness for C5: length word 32, payload byte 77 at inner offset 31. -/
theorem wrapped_decode_spec_witness :
    (as_usize (List.drop 0 cbufWrapped) = .ok 32 ∧ 0 + 64 + 32 ≤ cbufWrapped.length) ∧
    wrapped_decode_static u8decV cbufWrapped 0 =
      u8decV (List.take 32 (List.drop (0 + 64) cbufWrapped)) 0 ∧
    u8decV (List.take 32 (List.drop (0 + 64) cbufWrapped)) 0 = .ok (Val.nat 77) := by
  refine ⟨⟨by decide, by decide⟩, ?_, by decide⟩
  exact wrapped_decode_spec u8decV cbufWrapped 0 32 (by decide) (by decide)

/-! ### C3 — array of dynamic tuples -/

theorem tuplesLoop_ok {α : Type} (dec : Dec α) (buf : List Nat) (toff : Nat)
    (t : Nat → Nat) (e : Nat → α) :
    ∀ n i,
      (∀ j, j < n →
        as_usize (List.drop (toff + (i + j) * 32) buf) = .ok (t (i + j)) ∧
        t (i + j) + toff ≤ buf.length ∧
        dec (List.drop (t (i + j) + toff) buf) 0 = .ok (e (i + j))) →
      tuplesLoop dec buf toff i n = .ok ((List.range' i n).map e) := by
  intro n
  induction n with
  | zero => intro i _; simp [tuplesLoop]
  | succ n ih =>
    intro i hj
    obtain ⟨h1, h2, h3⟩ := by simpa using hj 0 (Nat.succ_pos n)
    have hrest : tuplesLoop dec buf toff (i + 1) n = .ok ((List.range' (i + 1) n).map e) := by
      refine ih (i + 1) fun j hjn => ?_
      have := hj (j + 1) (by omega)
      simpa [show i + 1 + j = i + (j + 1) by omega] using this
    unfold tuplesLoop
    rw [h1, DRes.bind_ok, if_pos h2]
    unfold decodeOf
    rw [h3, DRes.unwrapD_ok, DRes.bind_ok, hrest, DRes.bind_ok, List.range'_succ]
    rfl

/-- C3: `Tuples::<T>::decode_static(buf, offset)` reads the first
indirection `v` at `offset`, the length `L` at `v`, then for each `i < L`
reads the per-element tail offset `t i` from the word at `v + 32 + 32*i`
and decodes element `i` standalone (offset 0 of the suffix) at absolute
position `t i + v + 32`; the result is the ordered sequence of exactly `L`
decoded tuples. -/
theorem tuples_decode_spec {α : Type} (dec : Dec α) (buf : List Nat) (offset v L : Nat)
    (t : Nat → Nat) (e : Nat → α)
    (hv : as_usize (List.drop offset buf) = .ok v)
    (hL : as_usize (List.drop v buf) = .ok L)
    (hel : ∀ i, i < L →
      as_usize (List.drop (v + 32 + i * 32) buf) = .ok (t i) ∧
      t i + (v + 32) ≤ buf.length ∧
      dec (List.drop (t i + (v + 32)) buf) 0 = .ok (e i)) :
    tuples_decode_static dec buf offset = .ok ((List.range L).map e) := by
  unfold tuples_decode_static
  rw [hv, DRes.bind_ok, hL, DRes.bind_ok, List.range_eq_range']
  exact tuplesLoop_ok dec buf (v + 32) t e L 0 fun j hjL => by simpa using hel j hjL

set_option maxRecDepth 40000 in
/-- Witness for C3: indirection 32, length 1, tail offset 32, element byte 42. -/
theorem tuples_decode_spec_witness :
    (as_usize (List.drop 0 cbufTuples) = .ok 32 ∧
     as_usize (List.drop 32 cbufTuples) = .ok 1) ∧
    tuples_decode_static u8decV cbufTuples 0 = .ok [Val.nat 42] := by
  refine ⟨⟨by decide, by decide⟩, ?_⟩
  have h := tuples_decode_spec u8decV cbufTuples 0 32 1 (fun _ => 32) (fun _ => Val.nat 42)
    (by decide) (by decide) (by decide)
  rw [h]; decide

/-! ### C8 — failure propagation inside composites -/

theorem tuplesLoop_ne_err {α : Type} (dec : Dec α) (buf : List Nat) (toff : Nat) :
    ∀ n i, tuplesLoop dec buf toff i n ≠ .err := by
  intro n
  induction n with
  | zero => intro i; simp [tuplesLoop]
  | succ n ih =>
    intro i
    unfold tuplesLoop
    refine DRes.bind_ne_err (as_usize_ne_err _) fun t => ?_
    split
    · refine DRes.bind_ne_err (DRes.unwrapD_ne_err _) fun v => ?_
      refine DRes.bind_ne_err (ih (i + 1)) fun rest => ?_
      simp
    · simp

theorem arrayDynLoop_ne_err {α : Type} (dec : Dec α) (buf : List Nat) (toff : Nat) :
    ∀ n i, arrayDynLoop dec buf toff i n ≠ .err := by
  intro n
  induction n with
  | zero => intro i; simp [arrayDynLoop]
  | succ n ih =>
    intro i
    unfold arrayDynLoop
    refine DRes.bind_ne_err (as_usize_ne_err _) fun t => ?_
    split
    · refine DRes.bind_ne_err (DRes.unwrapD_ne_err _) fun v => ?_
      refine DRes.bind_ne_err (ih (i + 1)) fun rest => ?_
      simp
    · simp

theorem arrayStaLoop_ne_err {α : Type} (dec : Dec α) (buf : List Nat) (loff : Nat) :
    ∀ n i, arrayStaLoop dec buf loff i n ≠ .err := by
  intro n
  induction n with
  | zero => intro i; simp [arrayStaLoop]
  | succ n ih =>
    intro i
    unfold arrayStaLoop
    split
    · refine DRes.bind_ne_err (DRes.unwrapD_ne_err _) fun v => ?_
      refine DRes.bind_ne_err (ih (i + 1)) fun rest => ?_
      simp
    · simp

/-- C8 (amended): when an element or field decode fails inside
`Tuples`, `Array<_, true>`, `Array<_, false>` or `Tuple`, the enclosing
`decode_static` aborts with no partial result — but by panicking (the
composites `unwrap()` their element results), not by returning the failure
value: none of these composite decoders can ever return `Err`, for any
element decoder, buffer and offset. -/
theorem composite_decoders_no_err {α : Type} (dec : Dec α) (buf : List Nat) (offset : Nat) :
    tuples_decode_static dec buf offset ≠ .err ∧
    array_dyn_decode_static dec buf offset ≠ .err ∧
    array_sta_decode_static dec buf offset ≠ .err ∧
    tuple_decode_static dec buf offset ≠ .err := by
  refine ⟨?_, ?_, ?_, ?_⟩
  · unfold tuples_decode_static
    refine DRes.bind_ne_err (as_usize_ne_err _) fun len_offset => ?_
    refine DRes.bind_ne_err (as_usize_ne_err _) fun len => ?_
    exact tuplesLoop_ne_err dec buf (len_offset + 32) len 0
  · unfold array_dyn_decode_static
    refine DRes.bind_ne_err (as_usize_ne_err _) fun len => ?_
    exact arrayDynLoop_ne_err dec buf (offset + 32) len 0
  · unfold array_sta_decode_static
    refine DRes.bind_ne_err (as_usize_ne_err _) fun len => ?_
    exact arrayStaLoop_ne_err dec buf offset len 0
  · unfold tuple_decode_static
    refine DRes.bind_ne_err (as_usize_ne_err _) fun tail_offset => ?_
    split
    · exact DRes.unwrapD_ne_err _
    · simp

set_option maxRecDepth 40000 in
/-- C8 counterexample: a `Tuples` input whose single element's `bool` field
read is truncated.  The primitive decode fails, and the enclosing decode
aborts abnormally — it does not return the failure value. -/
theorem composite_abort_counterexample :
    tuples_decode_static boolDecV cbufTuplesTrunc 0 = DRes.abort ∧
    (DRes.abort : DRes (List Val)) ≠ DRes.err := by decide

/-! ### C1 — head-slot addressing in the emitted record decoder -/

theorem specHeadPass_zero (buf : List Nat) :
    ∀ (s : List FieldSpec) (idx : Nat), specHeadPass buf 0 s idx = headPass buf s idx := by
  intro s
  induction s with
  | nil => intro idx; rfl
  | cons f rest ih =>
    intro idx
    cases f <;> simp [specHeadPass, headPass, ih, Nat.zero_add]

/-- C1 (amended): the decoder emitted for a record schema ignores its
`base` argument entirely — every head slot is read at the absolute byte
position `32 * i` (static fields decoded there, dynamic 16-bit head
offsets read from bytes `32 * i + 30` and `32 * i + 31`).  Equivalently it
coincides with the specification's decoder (heads at `base + 32 * i`) only
at `base = 0`, for every value of the actual `base` argument. -/
theorem gen_decode_ignores_base (schema : List FieldSpec) (buf : List Nat) (base : Nat) :
    genDecodeStatic schema buf base = specDecodeStatic schema buf 0 := by
  unfold genDecodeStatic specDecodeStatic
  rw [specHeadPass_zero]

/-- C1 counterexample: a one-field record `{a: u8}` decoded with
`base = 32` from a buffer whose word 0 ends in byte 1 and word 1 ends in
byte 2.  The emitted decoder reads the head at absolute position 0 and
yields 1; the claimed behaviour (head at `base + 32 * 0 = 32`) yields 2. -/
theorem gen_decode_base_counterexample :
    genDecodeStatic [FieldSpec.sta u8decV] cbufTwoWords 32 = .ok [Val.nat 1] ∧
    specDecodeStatic [FieldSpec.sta u8decV] cbufTwoWords 32 = .ok [Val.nat 2] := by
  constructor <;> decide

/-! ### C6 — skipped fields -/

theorem headPass_append (buf : List Nat) (s₂ : List FieldSpec) :
    ∀ (s₁ : List FieldSpec) (idx : Nat),
      headPass buf (s₁ ++ s₂) idx =
        DRes.bind (headPass buf s₁ idx) fun h₁ =>
          DRes.map (fun h₂ => h₁ ++ h₂) (headPass buf s₂ (idx + s₁.length)) := by
  intro s₁
  induction s₁ with
  | nil =>
    intro idx
    simp only [List.nil_append, headPass, DRes.bind_ok, List.length_nil, Nat.add_zero,
      List.nil_append]
    exact (DRes.map_id _).symm
  | cons f rest ih =>
    intro idx
    have harith : idx + (rest.length + 1) = idx + 1 + rest.length := by omega
    cases f <;>
      simp [headPass, ih, DRes.bind_map, DRes.map_bind, DRes.map_map, DRes.bind_assoc,
        List.length_cons, harith]

theorem headPass_length (buf : List Nat) :
    ∀ (s : List FieldSpec) (idx : Nat) (h : List HeadV),
      headPass buf s idx = .ok h → h.length = s.length := by
  intro s
  induction s with
  | nil =>
    intro idx h hh
    simp only [headPass] at hh
    cases hh
    rfl
  | cons f rest ih =>
    intro idx h hh
    cases f with
    | skp d =>
      simp only [headPass] at hh
      cases hrest : headPass buf rest (idx + 1) with
      | ok hs =>
        rw [hrest] at hh
        simp only [DRes.map_ok, DRes.ok.injEq] at hh
        subst hh
        simp [ih (idx + 1) hs hrest]
      | err => rw [hrest] at hh; simp at hh
      | abort => rw [hrest] at hh; simp at hh
    | sta dec =>
      simp only [headPass] at hh
      cases hdec : dec buf (32 * idx) with
      | ok v =>
        rw [hdec] at hh
        simp only [DRes.bind_ok] at hh
        cases hrest : headPass buf rest (idx + 1) with
        | ok hs =>
          rw [hrest] at hh
          simp only [DRes.map_ok, DRes.ok.injEq] at hh
          subst hh
          simp [ih (idx + 1) hs hrest]
        | err => rw [hrest] at hh; simp at hh
        | abort => rw [hrest] at hh; simp at hh
      | err => rw [hdec] at hh; simp at hh
      | abort => rw [hdec] at hh; simp at hh
    | dyn dec =>
      simp only [headPass] at hh
      cases hdyn : dynHeadRead buf (32 * idx) with
      | ok o =>
        rw [hdyn] at hh
        simp only [DRes.bind_ok] at hh
        cases hrest : headPass buf rest (idx + 1) with
        | ok hs =>
          rw [hrest] at hh
          simp only [DRes.map_ok, DRes.ok.injEq] at hh
          subst hh
          simp [ih (idx + 1) hs hrest]
        | err => rw [hrest] at hh; simp at hh
        | abort => rw [hrest] at hh; simp at hh
      | err => rw [hdyn] at hh; simp at hh
      | abort => rw [hdyn] at hh; simp at hh

theorem DRes.bind_congr {α β : Type} {x : DRes α} {f g : α → DRes β}
    (h : ∀ a, x = .ok a → f a = g a) : DRes.bind x f = DRes.bind x g := by
  cases x with
  | ok a => exact h a rfl
  | err => rfl
  | abort => rfl

theorem tailPass_append (buf : List Nat) (s₂ : List FieldSpec) (h₂ : List HeadV) :
    ∀ (s₁ : List FieldSpec) (h₁ : List HeadV), s₁.length = h₁.length →
      tailPass buf (s₁ ++ s₂) (h₁ ++ h₂) =
        DRes.bind (tailPass buf s₁ h₁) fun v₁ =>
          DRes.map (fun v₂ => v₁ ++ v₂) (tailPass buf s₂ h₂) := by
  intro s₁
  induction s₁ with
  | nil =>
    intro h₁ hlen
    cases h₁ with
    | cons hv hrest => simp at hlen
    | nil =>
      simp only [List.nil_append, tailPass, DRes.bind_ok]
      exact (DRes.map_id _).symm
  | cons f rest ih =>
    intro h₁ hlen
    cases h₁ with
    | nil => simp at hlen
    | cons hv hrest =>
      have hlen2 : rest.length = hrest.length := by
        simpa using hlen
      cases f <;> cases hv <;>
        simp [tailPass, ih hrest hlen2, DRes.map_bind, DRes.bind_map, DRes.map_map,
          DRes.bind_assoc]

/-- C6 (amended): a skipped field binds its type's default value and emits
no read — but it still occupies a head slot: the emitted decoder for a
schema with a skipped field behaves exactly like the decoder for the same
schema with that field replaced by a static field whose decoder reads
nothing and returns the default, so the head positions of the following
fields are `32 * i` with `i` counting the skipped field. -/
theorem gen_decode_skip_head_slot (s₁ s₂ : List FieldSpec) (d : Val) (buf : List Nat)
    (off : Nat) :
    genDecodeStatic (s₁ ++ FieldSpec.skp d :: s₂) buf off =
      genDecodeStatic (s₁ ++ FieldSpec.sta (fun _ _ => DRes.ok d) :: s₂) buf off := by
  unfold genDecodeStatic
  rw [headPass_append, headPass_append, DRes.bind_assoc, DRes.bind_assoc]
  refine DRes.bind_congr fun h₁ hok => ?_
  have hlen : h₁.length = s₁.length := headPass_length buf s₁ 0 h₁ hok
  rw [DRes.bind_map, DRes.bind_map]
  simp only [headPass, DRes.bind_map, DRes.bind_ok]
  refine DRes.bind_congr fun hs₂ _ => ?_
  rw [tailPass_append buf _ _ s₁ h₁ hlen.symm, tailPass_append buf _ _ s₁ h₁ hlen.symm]
  refine DRes.bind_congr fun v₁ _ => ?_
  simp [tailPass]

set_option maxRecDepth 40000 in
/-- C6 counterexample: schema `[skip bool, u8]` on a buffer whose word 0
ends in byte 7 and word 1 ends in byte 9.  The emitted decoder reads the
second field at head slot 1 (absolute 32) and yields 9; under the claim
(skipped field occupying no head slot) the second field would be read at
head slot 0 and yield 7. -/
theorem gen_decode_skip_counterexample :
    genDecodeStatic [FieldSpec.skp (Val.bool false), FieldSpec.sta u8decV] cbufSkip 0 =
      .ok [Val.bool false, Val.nat 9] ∧
    genDecodeStatic [FieldSpec.skp (Val.bool false), FieldSpec.sta u8decV] cbufSkip 0 ≠
      .ok [Val.bool false, Val.nat 7] := by
  constructor <;> decide
